import Mathlib

/-!
# controlHub — verification of the query resolution layer and charting pipeline

Shallow embedding of the controlHub repository: the Go backend
(`src/backend/main.go`: `QueryParams`, `getEvents`, `queryClickHouse`,
`queryPostgreSQL`) and the React frontend (`src/frontend/src/App.jsx`:
`fetchEvents` / `loadMore` pagination; `src/frontend/vite.config.js`
bundle: `extractNestedFields`, `extractFields`, `getNestedValue`,
`prepareChartData`).

Machine integers are modelled as `Int`; timestamps are epoch milliseconds.
Database engines are modelled denotationally: a compiled query is both a
text (the exact SQL string the Go code assembles) and a function from the
table contents to the returned row list, with `ORDER BY timestamp DESC`
modelled as one fixed stable sort used for both engines, and SQL
`LIMIT`/`OFFSET` semantics (offset rows discarded before the limit is
applied, regardless of clause order in the text).
-/

set_option allowUnsafeReducibility true

/- Batteries marks the rational-number operations `@[irreducible]`, which
stops `decide`/`rfl` evaluation of the model's JavaScript numeric
functions at concrete inputs; restore the ordinary transparency for this
file. (This affects elaboration only, not the kernel.) -/
attribute [local semireducible] Rat.add Rat.mul Rat.div Rat.sub Rat.neg Rat.inv
  Rat.ofScientific

namespace ControlHub

/-- The uniform event record (`type Event struct` in main.go): timestamp,
tool, topic and the serialized `structured` payload. -/
structure Event where
  timestamp : Int
  tool : String
  topic : String
  structured : String
deriving Repr, DecidableEq

/-- `type QueryParams struct` in main.go. Gin's `ShouldBindQuery` binds only
the five tagged fields `timeRange`, `content`, `database`, `limit`,
`offset`; there is no topic field. -/
structure QueryParams where
  timeRange : String
  content : String
  database : String
  limit : Int
  offset : Int
deriving Repr, DecidableEq

/-- The raw `GET /api/events` query string as the HTTP surface receives it
(the frontend also sends `topic`, see App.jsx `fetchEvents`/`loadMore`). -/
structure RawRequest where
  timeRange : String
  content : String
  topic : String
  database : String
  limit : Int
  offset : Int
deriving Repr, DecidableEq

/-- `c.ShouldBindQuery(&params)` in `getEvents`: only the fields tagged in
`QueryParams` are bound; the request's `topic` value has no corresponding
field and is dropped. -/
def bindQuery (r : RawRequest) : QueryParams :=
  { timeRange := r.timeRange
    content := r.content
    database := r.database
    limit := r.limit
    offset := r.offset }

/-- The `switch params.TimeRange` in `queryClickHouse` (durations in
milliseconds; Go uses `time.Duration`, the unit is irrelevant to the
ordering facts proved here). Unrecognized tokens fall to the `default:`
branch, one hour. -/
def chRangeDuration (tr : String) : Int :=
  if tr = "1m" then 60 * 1000
  else if tr = "5m" then 5 * 60 * 1000
  else if tr = "20m" then 20 * 60 * 1000
  else if tr = "1h" then 60 * 60 * 1000
  else if tr = "5h" then 5 * 60 * 60 * 1000
  else if tr = "1d" then 24 * 60 * 60 * 1000
  else if tr = "1w" then 7 * 24 * 60 * 60 * 1000
  else if tr = "1mo" then 30 * 24 * 60 * 60 * 1000
  else 60 * 60 * 1000

/-- The identical `switch params.TimeRange` in `queryPostgreSQL`. -/
def pgRangeDuration (tr : String) : Int :=
  if tr = "1m" then 60 * 1000
  else if tr = "5m" then 5 * 60 * 1000
  else if tr = "20m" then 20 * 60 * 1000
  else if tr = "1h" then 60 * 60 * 1000
  else if tr = "5h" then 5 * 60 * 60 * 1000
  else if tr = "1d" then 24 * 60 * 60 * 1000
  else if tr = "1w" then 7 * 24 * 60 * 60 * 1000
  else if tr = "1mo" then 30 * 24 * 60 * 60 * 1000
  else 60 * 60 * 1000

/-- `LIKE '%' || c || '%'`: case-sensitive unanchored substring match.
(Wildcard characters inside the content value would be interpreted by
LIKE itself; both engines interpret them identically, and no claim here
exercises them.) -/
def likeContains (hay pat : String) : Bool :=
  decide (pat.toList.IsInfix hay.toList)

/-- Row predicate of the WHERE clause `queryClickHouse` assembles:
`1=1 AND timestamp >= ?` (when a time range is requested) `AND structured
LIKE ?` (when a content filter is present). `now` is `time.Now()` at
query-issue time. -/
def chMatches (p : QueryParams) (now : Int) (e : Event) : Bool :=
  (p.timeRange == "" || decide (now - chRangeDuration p.timeRange ≤ e.timestamp)) &&
  (p.content == "" || likeContains e.structured p.content)

/-- Row predicate of the WHERE clause `queryPostgreSQL` assembles (the
`structured::text` cast is the identity here since the model's
`structured` is already text). -/
def pgMatches (p : QueryParams) (now : Int) (e : Event) : Bool :=
  (p.timeRange == "" || decide (now - pgRangeDuration p.timeRange ≤ e.timestamp)) &&
  (p.content == "" || likeContains e.structured p.content)

/-- `ORDER BY timestamp DESC`, modelled as one fixed stable sort shared by
both engine models ("equivalent data" in the spec's sense: same rows, same
engine ordering behaviour on ties). -/
def orderByTimestampDesc (rows : List Event) : List Event :=
  rows.insertionSort (fun a b => b.timestamp ≤ a.timestamp)

/-- Row semantics of the query `queryClickHouse` compiles: filter, order,
then — exactly as the Go code branches — `LIMIT l OFFSET o` when both are
positive, `LIMIT l` when only the limit is, and no clause otherwise. -/
def queryClickHouse (p : QueryParams) (now : Int) (table : List Event) : List Event :=
  let rows := orderByTimestampDesc (table.filter (chMatches p now))
  if 0 < p.limit then
    if 0 < p.offset then (rows.drop p.offset.toNat).take p.limit.toNat
    else rows.take p.limit.toNat
  else rows

/-- Row semantics of the query `queryPostgreSQL` compiles: filter, order,
`LIMIT $n` when the limit is positive and `OFFSET $m` when the offset is.
SQL applies OFFSET before LIMIT regardless of clause order in the text. -/
def queryPostgreSQL (p : QueryParams) (now : Int) (table : List Event) : List Event :=
  let rows := orderByTimestampDesc (table.filter (pgMatches p now))
  let rows := if 0 < p.offset then rows.drop p.offset.toNat else rows
  if 0 < p.limit then rows.take p.limit.toNat else rows

/-- The exact SQL text `queryClickHouse` assembles. -/
def chQueryText (p : QueryParams) : String :=
  let q := "SELECT timestamp, tool, topic, structured FROM events WHERE 1=1"
  let q := if p.timeRange ≠ "" then q ++ " AND timestamp >= ?" else q
  let q := if p.content ≠ "" then q ++ " AND structured LIKE ?" else q
  if 0 < p.limit then
    if 0 < p.offset then
      q ++ " ORDER BY timestamp DESC LIMIT " ++ toString p.limit ++
        " OFFSET " ++ toString p.offset
    else q ++ " ORDER BY timestamp DESC LIMIT " ++ toString p.limit
  else q ++ " ORDER BY timestamp DESC"

/-- The exact SQL text `queryPostgreSQL` assembles, with its `argIndex`
numbering of positional placeholders. -/
def pgQueryText (p : QueryParams) : String :=
  let q := "SELECT timestamp, tool, topic, structured::text FROM events WHERE 1=1"
  let i : Nat := 1
  let qi := if p.timeRange ≠ "" then (q ++ " AND timestamp >= $" ++ toString i, i + 1) else (q, i)
  let qi := if p.content ≠ "" then
      (qi.1 ++ " AND structured::text LIKE $" ++ toString qi.2, qi.2 + 1) else qi
  let qi := (qi.1 ++ " ORDER BY timestamp DESC", qi.2)
  let qi := if 0 < p.limit then (qi.1 ++ " LIMIT $" ++ toString qi.2, qi.2 + 1) else qi
  if 0 < p.offset then qi.1 ++ " OFFSET $" ++ toString qi.2 else qi.1

/-- The defaults `getEvents` applies before dispatch: limit 100 when
non-positive, store "clickhouse" when absent. -/
def applyDefaults (p : QueryParams) : QueryParams :=
  { p with
    limit := if p.limit ≤ 0 then 100 else p.limit
    database := if p.database = "" then "clickhouse" else p.database }

/-- The two store adapters. -/
inductive Adapter where
  | clickhouse
  | postgresql
deriving Repr, DecidableEq

/-- The adapter `getEvents` dispatches to after defaulting:
`if params.Database == "clickhouse" { queryClickHouse } else
{ queryPostgreSQL }`. -/
def selectedAdapter (r : RawRequest) : Adapter :=
  if (applyDefaults (bindQuery r)).database = "clickhouse" then .clickhouse
  else .postgresql

/-- What `getEvents` writes back: on adapter success a JSON body with the
events and their count, on adapter error a body carrying only the error
message. -/
inductive ApiResponse where
  | ok (events : List Event) (count : Nat)
  | fail (msg : String)
deriving Repr, DecidableEq

/-- The events an `ApiResponse` carries: the error branch of `getEvents`
writes `{"error": ...}` and returns, so it carries none. -/
def responseEvents : ApiResponse → List Event
  | .ok evs _ => evs
  | .fail _ => []

/-- `getEvents`, with each adapter's I/O outcome abstracted as an oracle
returning `(events, err)` exactly as the Go functions do. The facade binds
the query, applies defaults, invokes the selected adapter once and renders
the outcome; it never retries and, on error, responds with the message
alone. -/
def getEvents (r : RawRequest)
    (chRun pgRun : QueryParams → List Event × Option String) : ApiResponse :=
  let p := applyDefaults (bindQuery r)
  let res := if p.database = "clickhouse" then chRun p else pgRun p
  match res.2 with
  | some msg => ApiResponse.fail msg
  | none => ApiResponse.ok res.1 res.1.length

/-- A pure (error-free) run of the ClickHouse adapter over a table
snapshot. -/
def chRunPure (now : Int) (table : List Event) : QueryParams → List Event × Option String :=
  fun p => (queryClickHouse p now table, none)

/-- A pure (error-free) run of the PostgreSQL adapter over a table
snapshot. -/
def pgRunPure (now : Int) (table : List Event) : QueryParams → List Event × Option String :=
  fun p => (queryPostgreSQL p now table, none)

/-! ## Frontend pagination controller (src/frontend/src/App.jsx)

The React component's state (`useState` hooks) plus the outstanding axios
calls, and a small-step semantics over the discrete UI events: a
proximity-to-bottom signal (`loadMore`), a filter change (the `useEffect`
on `[timeRange, database, topicFilter, contentFilter]` firing
`fetchEvents(false, 0)`), and the resolution or rejection of the
outstanding requests. Each step is the exact state update the
corresponding callback performs; in particular nothing in the code
cancels or tags an outstanding request when the filter changes. -/

/-- The active filter (the pieces of component state sent as request
parameters). -/
structure Filter where
  timeRange : String
  content : String
  topic : String
  database : String
deriving Repr, DecidableEq

/-- Component state: the `useState` fields of `App`, plus the outstanding
requests (each recorded with the closure values its callbacks captured)
and a count of requests issued so far. -/
structure AppState where
  events : List Event
  loading : Bool
  loadingMore : Bool
  error : Option String
  offset : Nat
  hasMore : Bool
  filter : Filter
  pendingFirst : Option Filter
  pendingMore : Option (Filter × Nat)
  requestsIssued : Nat
deriving Repr, DecidableEq

/-- Initial `useState` values: empty buffer, no flags, offset 0,
`hasMore` true. -/
def initApp (f : Filter) : AppState :=
  { events := []
    loading := false
    loadingMore := false
    error := none
    offset := 0
    hasMore := true
    filter := f
    pendingFirst := none
    pendingMore := none
    requestsIssued := 0 }

/-- The page size both `fetchEvents` and `loadMore` request (`limit: 100`)
and compare page lengths against. -/
def pageLimit : Nat := 100

/-- The discrete UI events driving the controller. -/
inductive UiAction where
  | nearBottom
  | changeFilter (f : Filter)
  | firstResolved (page : List Event)
  | moreResolved (page : List Event)
  | moreRejected
deriving Repr

/-- One step of the controller, mirroring App.jsx:

* `nearBottom` — the scroll handler calls `loadMore()`, which issues a
  request only under `!loadingMore && hasMore && !loading`, capturing the
  current offset and filter in the closure;
* `changeFilter f` — the filter `useEffect` fires `fetchEvents(false, 0)`:
  `loading := true`, `offset := 0`, `hasMore := true`, `error := null`.
  The outstanding `loadMore` request, if any, is left untouched;
* `firstResolved page` — the `fetchEvents(false, 0)` response: the buffer
  is replaced by the page, then the short-page check updates
  `hasMore`/`offset`;
* `moreResolved page` — the `loadMore` `.then` callback: the page is
  appended to the buffer unconditionally (no filter-epoch check), then the
  short-page check runs against the captured offset;
* `moreRejected` — the `loadMore` `.catch` callback: only
  `loadingMore := false`. -/
def stepApp (s : AppState) : UiAction → AppState
  | .nearBottom =>
      if !s.loadingMore && s.hasMore && !s.loading then
        { s with loadingMore := true
                 pendingMore := some (s.filter, s.offset)
                 requestsIssued := s.requestsIssued + 1 }
      else s
  | .changeFilter f =>
      { s with filter := f
               loading := true
               offset := 0
               hasMore := true
               error := none
               pendingFirst := some f
               requestsIssued := s.requestsIssued + 1 }
  | .firstResolved page =>
      match s.pendingFirst with
      | none => s
      | some _ =>
          let s := { s with events := page, pendingFirst := none, loading := false }
          if page.length < pageLimit then { s with hasMore := false }
          else { s with hasMore := true, offset := 0 + page.length }
  | .moreResolved page =>
      match s.pendingMore with
      | none => s
      | some (_, capturedOffset) =>
          let s := { s with events := s.events ++ page
                            pendingMore := none
                            loadingMore := false }
          if page.length < pageLimit then { s with hasMore := false }
          else { s with hasMore := true, offset := capturedOffset + page.length }
  | .moreRejected =>
      match s.pendingMore with
      | none => s
      | some _ => { s with pendingMore := none, loadingMore := false }

/-- A run of the controller over a list of UI events. -/
def runApp (s : AppState) (acts : List UiAction) : AppState :=
  acts.foldl stepApp s

/-! ## Sequential pagination loop (claim C8)

The same `fetchEvents`/`loadMore` logic specialised to the sequential,
failure-free scenario of the pagination-termination property: each fetch
returns the server's page at the captured offset, and the response is
processed before the next proximity signal. The server page is the
backend's row semantics at `limit := 100, offset`. -/

/-- Controller state that matters to the sequential loop. -/
structure PagState where
  buffer : List Event
  offset : Nat
  hasMore : Bool
  fetches : Nat
deriving Repr, DecidableEq

/-- The page the backend serves at a given offset for a fixed filter:
`matching` is the ordered result set of the compiled query without
LIMIT/OFFSET. -/
def serverPage (matching : List Event) (off : Nat) : List Event :=
  (matching.drop off).take pageLimit

/-- The response-processing shared by `fetchEvents` and `loadMore`: append
the page, then the short-page check (`newEvents.length < 100` clears
`hasMore` and leaves the offset; otherwise the offset advances by the
returned page length). -/
def applyPage (s : PagState) (page : List Event) : PagState :=
  if page.length < pageLimit then
    { s with buffer := s.buffer ++ page, hasMore := false, fetches := s.fetches + 1 }
  else
    { buffer := s.buffer ++ page
      offset := s.offset + page.length
      hasMore := true
      fetches := s.fetches + 1 }

/-- `fetchEvents(false, 0)`: reset, then process the first page. -/
def initialFetch (matching : List Event) : PagState :=
  applyPage { buffer := [], offset := 0, hasMore := true, fetches := 0 }
    (serverPage matching 0)

/-- One `loadMore` round trip: a no-op when `hasMore` is false (the guard
issues no request), otherwise fetch the page at the current offset and
process it. -/
def loadMoreStep (matching : List Event) (s : PagState) : PagState :=
  if s.hasMore then applyPage s (serverPage matching s.offset) else s

/-! ## JSON values and JavaScript numeric parsing
(for the charting pipeline in src/frontend/vite.config.js)

`JSON.parse` results are modelled by `JsonValue`; an event whose
`structured` text fails to parse carries `none`. JavaScript numbers are
modelled as rationals: every number `JSON.parse` produces from the inputs
considered here is finite, so the model has no NaN/Infinity *number*
values, while `parseFloat` results — which can be NaN or infinite — are
the separate type `JsNum`. -/

/-- A parsed JSON document. -/
inductive JsonValue where
  | null
  | bool (b : Bool)
  | num (q : ℚ)
  | str (s : String)
  | arr (elems : List JsonValue)
  | obj (fields : List (String × JsonValue))
deriving Repr, Inhabited

/-- Result of JavaScript `parseFloat`. -/
inductive JsNum where
  | nan
  | posInf
  | negInf
  | val (q : ℚ)
deriving Repr, DecidableEq

/-- The whitespace `parseFloat` skips before the literal. -/
def isJsSpace (c : Char) : Bool :=
  c = ' ' || c = '\t' || c = '\n' || c = '\r'

/-- Numeric value of a decimal digit list. -/
def digitsToNat (ds : List Char) : Nat :=
  ds.foldl (fun acc c => 10 * acc + (c.toNat - '0'.toNat)) 0

/-- An optional `ExponentPart` (`e`/`E`, optional sign, digits). When the
digits are missing the exponent marker is not consumed — `parseFloat`
takes the longest valid literal prefix, so `"1e"` parses as `1`. -/
def parseExpPart (cs : List Char) : Int × List Char :=
  match cs with
  | c :: rest =>
      if c = 'e' || c = 'E' then
        match rest with
        | '+' :: r2 =>
            let ds := r2.takeWhile Char.isDigit
            if ds = [] then (0, cs) else ((digitsToNat ds : Int), r2.dropWhile Char.isDigit)
        | '-' :: r2 =>
            let ds := r2.takeWhile Char.isDigit
            if ds = [] then (0, cs) else (-(digitsToNat ds : Int), r2.dropWhile Char.isDigit)
        | _ =>
            let ds := rest.takeWhile Char.isDigit
            if ds = [] then (0, cs) else ((digitsToNat ds : Int), rest.dropWhile Char.isDigit)
      else (0, cs)
  | [] => (0, [])

/-- The unsigned decimal magnitude of a `StrDecimalLiteral`: digits,
optional fraction, optional exponent; or a leading `.` with digits.
Returns the value and the unconsumed remainder, or `none` when no
literal starts here. -/
def parseFloatMagnitude (cs : List Char) : Option (ℚ × List Char) :=
  let intDs := cs.takeWhile Char.isDigit
  let r1 := cs.dropWhile Char.isDigit
  if intDs = [] then
    match r1 with
    | '.' :: r2 =>
        let fracDs := r2.takeWhile Char.isDigit
        if fracDs = [] then none
        else
          let er := parseExpPart (r2.dropWhile Char.isDigit)
          some ((digitsToNat fracDs : ℚ) / (10 : ℚ) ^ fracDs.length * (10 : ℚ) ^ er.1, er.2)
    | _ => none
  else
    match r1 with
    | '.' :: r2 =>
        let fracDs := r2.takeWhile Char.isDigit
        let er := parseExpPart (r2.dropWhile Char.isDigit)
        some (((digitsToNat intDs : ℚ) + (digitsToNat fracDs : ℚ) / (10 : ℚ) ^ fracDs.length)
                * (10 : ℚ) ^ er.1, er.2)
    | _ =>
        let er := parseExpPart r1
        some ((digitsToNat intDs : ℚ) * (10 : ℚ) ^ er.1, er.2)

/-- JavaScript `parseFloat` on a character list: skip leading whitespace,
optional sign, `Infinity` or a decimal literal; `NaN` when no literal
starts the string. Returns the value and the unconsumed remainder. -/
def jsParseFloatList (cs : List Char) : JsNum × List Char :=
  let cs0 := cs.dropWhile isJsSpace
  let sgn : Bool × List Char :=
    match cs0 with
    | '+' :: rest => (false, rest)
    | '-' :: rest => (true, rest)
    | _ => (false, cs0)
  if sgn.2.take 8 = "Infinity".toList then
    ((if sgn.1 then JsNum.negInf else JsNum.posInf), sgn.2.drop 8)
  else
    match parseFloatMagnitude sgn.2 with
    | none => (JsNum.nan, cs)
    | some (q, rest) => (JsNum.val (if sgn.1 then -q else q), rest)

/-- JavaScript `parseFloat`. -/
def jsParseFloat (s : String) : JsNum :=
  (jsParseFloatList s.toList).1

/-- The spec's phrase for claim C6, as its own definition: "a string that
parses fully as a finite number" — the numeric parse yields a finite
value and consumes the entire string. -/
def specParsesFullyAsFiniteNumber (s : String) : Bool :=
  match jsParseFloatList s.toList with
  | (JsNum.val _, rest) => rest.isEmpty
  | _ => false

/-- JavaScript `parseInt(part, 10)` as `getNestedValue` uses it: skip
whitespace, optional sign, at least one digit; `NaN` (here `none`)
otherwise. -/
def jsParseInt (s : String) : Option Int :=
  let cs := s.toList.dropWhile isJsSpace
  let sgn : Bool × List Char :=
    match cs with
    | '+' :: rest => (false, rest)
    | '-' :: rest => (true, rest)
    | _ => (false, cs)
  let ds := sgn.2.takeWhile Char.isDigit
  if ds = [] then none
  else some (if sgn.1 then -(digitsToNat ds : Int) else (digitsToNat ds : Int))

/-! ## Nested field discovery (`extractNestedFields` / `extractFields`) -/

/-- JavaScript `String.prototype.trim`: strip leading and trailing
whitespace. -/
def jsTrim (s : String) : String :=
  String.mk (((s.toList.dropWhile isJsSpace).reverse.dropWhile isJsSpace).reverse)

/-- The leaf test of `extractNestedFields` at an object key:
`typeof value === 'number'` (model numbers are finite, so the inner
`isFinite` check passes), or a string with
`!isNaN(parseFloat(value)) && value.trim() !== ''` whose parsed value is
finite (`isFinite` rejects `"Infinity"`). -/
def isNumericLeafJS : JsonValue → Bool
  | .num _ => true
  | .str s =>
      (match jsParseFloat s with
       | .val _ => true
       | _ => false) && !(jsTrim s == "")
  | _ => false

mutual

/-- `extractNestedFields(obj, prefix, fieldSet)` from vite.config.js
(Charts component): arrays recurse into every element with a bracketed
index segment; objects add the extended path for numeric-leaf values and
recurse into object/array values; other values contribute nothing. -/
def extractNestedFields (v : JsonValue) (pre : String) : List String :=
  match v with
  | .arr elems => extractArrFields elems 0 pre
  | .obj fields => extractObjFields fields pre
  | _ => []

/-- The `obj.forEach((item, index) => ...)` loop over an array. -/
def extractArrFields (elems : List JsonValue) (i : Nat) (pre : String) : List String :=
  match elems with
  | [] => []
  | item :: rest =>
      extractNestedFields item (pre ++ "[" ++ toString i ++ "]") ++
      extractArrFields rest (i + 1) pre

/-- The `Object.keys(obj).forEach(key => ...)` loop: the dot-extended
path is added when the value passes the numeric-leaf test, otherwise
object and array values are recursed into
(`typeof value === 'object' && value !== null`). -/
def extractObjFields (fields : List (String × JsonValue)) (pre : String) : List String :=
  match fields with
  | [] => []
  | (k, v) :: rest =>
      let fieldPath := if pre = "" then k else pre ++ "." ++ k
      (if isNumericLeafJS v then [fieldPath]
       else
         match v with
         | .obj _ => extractNestedFields v fieldPath
         | .arr _ => extractNestedFields v fieldPath
         | _ => []) ++ extractObjFields rest pre

end

/-- An event as the charting pipeline sees it: the epoch-millisecond
timestamp (`new Date(event.timestamp).getTime()`) and the result of
`JSON.parse(event.structured)` — `none` when parsing throws and the
event is skipped. -/
structure ChartEvent where
  timestamp : Int
  structured : Option JsonValue
deriving Repr

/-- `extractFields(events)`: the union over the batch of every event's
discovered paths (a JS `Set`), returned sorted
(`Array.from(fieldSet).sort()`). -/
def discoverFields (batch : List ChartEvent) : List String :=
  (((batch.filterMap ChartEvent.structured).flatMap
      (fun v => extractNestedFields v "")).dedup).insertionSort (· ≤ ·)

/-- Dot extension of a field path (`prefix ? prefix + "." + key : key`). -/
def dotExtend (pre k : String) : String :=
  if pre = "" then k else pre ++ "." ++ k

/-- Bracketed-index extension of a field path. -/
def bracketExtend (pre : String) (i : Nat) : String :=
  pre ++ "[" ++ toString i ++ "]"

/-- The amended discovery rule of claim C6 as a path-derivation relation:
a discovered path descends through object keys (dot segments) and array
indices (bracket segments) and ends at an *object-key* position whose
value passes the code's numeric-leaf test (`isNumericLeafJS`: a finite
number, or a string with non-empty trim whose longest `parseFloat`
prefix is a finite number). Leaves that are direct array elements have
no rule: they are never included. -/
inductive NumericPathAt : JsonValue → String → String → Prop where
  | objLeaf {fields : List (String × JsonValue)} {pre k : String} {v : JsonValue} :
      (k, v) ∈ fields → isNumericLeafJS v = true →
      NumericPathAt (.obj fields) pre (dotExtend pre k)
  | objRec {fields : List (String × JsonValue)} {pre k p : String} {v : JsonValue} :
      (k, v) ∈ fields → NumericPathAt v (dotExtend pre k) p →
      NumericPathAt (.obj fields) pre p
  | arrElem {elems : List JsonValue} {pre p : String} {i : Nat} {item : JsonValue} :
      elems[i]? = some item → NumericPathAt item (bracketExtend pre i) p →
      NumericPathAt (.arr elems) pre p

/-! ## Series aggregation (`getNestedValue` / `prepareChartData`) -/

/-- JavaScript falsiness of a parsed JSON value (the `!obj` guard in
`getNestedValue`). -/
def jsFalsy : JsonValue → Bool
  | .null => true
  | .bool b => !b
  | .num q => q == 0
  | .str s => s == ""
  | _ => false

/-- Splitting a character list at every path separator (`.`, `[`, `]`),
keeping empty segments exactly as JavaScript `split` does. -/
def splitPathAux : List Char → List Char → List (List Char)
  | [], acc => [acc.reverse]
  | c :: rest, acc =>
      if c = '.' || c = '[' || c = ']' then acc.reverse :: splitPathAux rest []
      else splitPathAux rest (c :: acc)

/-- `path.split(/[\.\[\]]/).filter(p => p !== '')`. -/
def splitPathParts (path : String) : List String :=
  ((splitPathAux path.toList []).map String.mk).filter (· ≠ "")

/-- One step of `getNestedValue`'s loop: arrays are indexed by
`parseInt(part, 10)` (`NaN` or out-of-range gives undefined), objects by
key lookup, anything else gives undefined. `none` stands for both
JavaScript `undefined` and the `current === null` stop. -/
def stepPath (cur : JsonValue) (part : String) : Option JsonValue :=
  match cur with
  | .arr elems =>
      match jsParseInt part with
      | none => none
      | some i => if 0 ≤ i then elems[i.toNat]? else none
  | .obj fields => (fields.find? (fun kv => kv.1 == part)).map Prod.snd
  | _ => none

/-- `getNestedValue(obj, path)` from vite.config.js. -/
def getNestedValue (v : JsonValue) (path : String) : Option JsonValue :=
  if jsFalsy v || path == "" then none
  else (splitPathParts path).foldl (fun cur part => cur.bind (fun c => stepPath c part)) (some v)

/-- The coercion `prepareChartData` applies to a resolved field value:
`value !== null`, then `typeof value === 'number' ? value :
parseFloat(value)`, kept only when finite. Booleans and objects coerce
to strings (`"true"`, `"[object Object]"`) that `parseFloat` rejects;
an array would coerce through `Array.join` — that corner (e.g. `[5]` →
`"5"`) is modelled as NaN and no property proved here selects a field
resolving to an array. -/
def coerceChartNum : JsonValue → Option ℚ
  | .null => none
  | .num q => some q
  | .str s =>
      match jsParseFloat s with
      | .val q => some q
      | _ => none
  | _ => none

/-- Zero-padded two-digit rendering of a clock component. -/
def pad2 (n : Nat) : String :=
  if n < 10 then "0" ++ toString n else toString n

/-- `new Date(ts).toLocaleTimeString('en-US', {hour: '2-digit', minute:
'2-digit', second: '2-digit'})`: the en-US 12-hour clock rendering
`hh:mm:ss AM`/`hh:mm:ss PM` of the timestamp in the environment's local
timezone, here passed as an offset in minutes. (Recent ICU releases emit
a narrow no-break space before the day period; the model uses an ASCII
space — every fact proved below is insensitive to which space character
it is, only to the day-period suffix being present.) -/
def toLocaleTimeString_enUS (tzOffsetMinutes tsMs : Int) : String :=
  let secOfDay := ((tsMs + tzOffsetMinutes * 60000) % 86400000).toNat / 1000
  let h := secOfDay / 3600
  pad2 (if h % 12 = 0 then 12 else h % 12) ++ ":" ++ pad2 (secOfDay / 60 % 60) ++ ":" ++
    pad2 (secOfDay % 60) ++ (if h < 12 then " AM" else " PM")

/-- One entry of `prepareChartData`'s `dataMap`: the raw timestamp key,
the display-time label computed at insertion, and the per-field values
in property-insertion order. -/
structure DataPoint where
  timestamp : Int
  time : String
  values : List (String × ℚ)
deriving Repr, DecidableEq

/-- Property read on a JS object modelled as an insertion-ordered
association list. -/
def dpLookup (vals : List (String × ℚ)) (f : String) : Option ℚ :=
  (vals.find? (fun kv => kv.1 == f)).map Prod.snd

/-- Property write: overwrite in place when present, append otherwise. -/
def dpUpsert (vals : List (String × ℚ)) (f : String) (q : ℚ) : List (String × ℚ) :=
  if vals.any (fun kv => kv.1 == f) then
    vals.map (fun kv => if kv.1 == f then (kv.1, q) else kv)
  else vals ++ [(f, q)]

/-- The `dataPoint` built per event: timestamp, display time, and for
each selected field (in order) the resolved, coerced value when it is a
finite number. -/
def buildDataPoint (selected : List String) (tz ts : Int) (parsed : JsonValue) : DataPoint :=
  { timestamp := ts
    time := toLocaleTimeString_enUS tz ts
    values := selected.foldl (fun vals f =>
      match (getNestedValue parsed f).bind coerceChartNum with
      | none => vals
      | some q => dpUpsert vals f q) [] }

/-- The same-timestamp merge: for each selected field present in the new
data point, `existing[field] = (existing[field] || 0) + dataPoint[field]`;
fields absent from the new point leave the existing sums untouched, and
the existing display time is kept. -/
def mergeDataPoint (selected : List String) (existing incoming : DataPoint) : DataPoint :=
  { existing with values := selected.foldl (fun vals f =>
      match dpLookup incoming.values f with
      | none => vals
      | some q => dpUpsert vals f ((dpLookup vals f).getD 0 + q)) existing.values }

/-- Processing one event into the `dataMap` (a JS `Map` keyed by raw
timestamp, modelled as an insertion-ordered list with distinct keys):
parse-failures are skipped; a colliding timestamp merges by summation;
a fresh timestamp appends a new bucket. -/
def insertChartEvent (selected : List String) (tz : Int)
    (acc : List DataPoint) (e : ChartEvent) : List DataPoint :=
  match e.structured with
  | none => acc
  | some parsed =>
      let dp := buildDataPoint selected tz e.timestamp parsed
      if acc.any (fun old => old.timestamp == e.timestamp) then
        acc.map (fun old =>
          if old.timestamp == e.timestamp then mergeDataPoint selected old dp else old)
      else acc ++ [dp]

/-- An emitted series record: the raw timestamp has been stripped,
leaving the display time and the per-field sums. -/
structure SeriesPoint where
  time : String
  values : List (String × ℚ)
deriving Repr, DecidableEq

/-- `prepareChartData()`: fold the events into the timestamp-keyed map,
sort the buckets ascending by raw timestamp (JS `Array.sort` is stable),
and strip the timestamp from each record. -/
def prepareChartData (selected : List String) (tz : Int)
    (events : List ChartEvent) : List SeriesPoint :=
  let pts := (events.foldl (insertChartEvent selected tz) []).insertionSort
    (fun a b => a.timestamp ≤ b.timestamp)
  pts.map (fun dp => { time := dp.time, values := dp.values })

/-! ## Concrete inputs used by the closed theorems below -/

/-- A filter/table pair exercising both predicates and a positive
offset. -/
def eqWitnessParams : QueryParams :=
  { timeRange := "1h", content := "b", database := "clickhouse", limit := 2, offset := 1 }

/-- Four events, three of which match the content filter. -/
def eqWitnessTable : List Event :=
  [⟨0, "t", "x", "abc"⟩, ⟨5, "t", "x", "b"⟩, ⟨9, "t", "x", "zb"⟩, ⟨7, "t", "x", "no"⟩]

/-- A request carrying a topic parameter, as the frontend sends it. -/
def topicRequest : RawRequest :=
  { timeRange := "", content := "", topic := "alpha", database := "clickhouse",
    limit := 100, offset := 0 }

/-- An event with the requested topic. -/
def evAlpha : Event := { timestamp := 1, tool := "t", topic := "alpha", structured := "{}" }

/-- An event with a different topic. -/
def evBeta : Event := { timestamp := 2, tool := "t", topic := "beta", structured := "{}" }

/-- A first filter epoch. -/
def fA : Filter := { timeRange := "1h", content := "", topic := "", database := "clickhouse" }

/-- A second filter epoch (the user switches the time range). -/
def fB : Filter := { timeRange := "5m", content := "", topic := "", database := "clickhouse" }

/-- An event of the first epoch's first page. -/
def evA : Event := { timestamp := 10, tool := "t", topic := "x", structured := "{}" }

/-- The single event of the second epoch's first page. -/
def evB : Event := { timestamp := 20, tool := "t", topic := "x", structured := "{}" }

/-- The event delivered by the stale second-page response of the first
epoch. -/
def evStale : Event := { timestamp := 5, tool := "t", topic := "x", structured := "stale" }

/-- A full first page (100 events) under the first epoch, so that
`hasMore` stays true and a second page is requested. -/
def pageA1 : List Event := List.replicate pageLimit evA

/-- The interleaving of claim C3: first page of epoch A resolves, a
second-page fetch goes out, the user changes the filter to B, B's first
page resolves, and only then the stale second-page response of epoch A
arrives. -/
def traceC3 : AppState :=
  runApp (initApp fA)
    [.changeFilter fA, .firstResolved pageA1, .nearBottom,
     .changeFilter fB, .firstResolved [evB], .moreResolved [evStale]]

/-- The interleaving of claim C4: first page of epoch A resolves, a
second-page fetch goes out and fails. -/
def traceC4 : AppState :=
  runApp (initApp fA)
    [.changeFilter fA, .firstResolved pageA1, .nearBottom, .moreRejected]

/-- A request for the facade error path. -/
def failReq : RawRequest :=
  { timeRange := "1h", content := "", topic := "", database := "clickhouse",
    limit := 10, offset := 0 }

/-- An adapter run that fails, returning a partial row list alongside the
error (as `queryClickHouse` does when `rows.Err()` is non-nil after some
rows were scanned). -/
def failingChRun : QueryParams → List Event × Option String :=
  fun _ => ([evAlpha], some "clickhouse: connection refused")

/-- The three events of the spec's concrete aggregation scenario
(§8: `[{t:1000, '{"a":1}'}, {t:1000, '{"a":2}'}, {t:2000, '{"a":5}'}]`),
with `structured` already parsed. -/
def c5Events : List ChartEvent :=
  [⟨1000, some (.obj [("a", .num 1)])⟩,
   ⟨1000, some (.obj [("a", .num 2)])⟩,
   ⟨2000, some (.obj [("a", .num 5)])⟩]

/-- A one-event batch whose payload is `{"a": "12abc", "b": [5]}`: a
string leaf with a non-numeric suffix at an object key, and a numeric
leaf that is a direct array element. -/
def c6Batch : List ChartEvent :=
  [⟨0, some (.obj [("a", .str "12abc"), ("b", .arr [.num 5])])⟩]

/-! ## Theorems -/

/-- C1: for every QueryFilter with a positive limit — the facade defaults
`limit` to 100 when it is not positive, so every filter reaching an
adapter has one — the columnar and relational adapters compile queries
with identical row semantics: the same timestamp/content predicate
conjunction, the same `timestamp DESC` ordering, and the same
limit/offset window, so on the same table snapshot they return
row-for-row identical event sequences. -/
theorem adapter_equivalence (p : QueryParams) (now : Int) (table : List Event)
    (h : 0 < p.limit) :
    queryClickHouse p now table = queryPostgreSQL p now table := by
  have hm : pgMatches p now = chMatches p now := rfl
  simp only [queryClickHouse, queryPostgreSQL, hm]
  rw [if_pos h, if_pos h]
  by_cases ho : 0 < p.offset
  · rw [if_pos ho, if_pos ho]
  · rw [if_neg ho, if_neg ho]

/-- Witness for `adapter_equivalence`: a concrete filter with time range,
content filter, limit 2 and offset 1 over a four-event table. -/
theorem adapter_equivalence_witness :
    0 < eqWitnessParams.limit ∧
      queryClickHouse eqWitnessParams 10 eqWitnessTable =
        queryPostgreSQL eqWitnessParams 10 eqWitnessTable :=
  ⟨by decide, adapter_equivalence eqWitnessParams 10 eqWitnessTable (by decide)⟩

/-- C2 (code bug): the backend ignores the topic parameter entirely.
`QueryParams` has no topic field, so `ShouldBindQuery` drops the
request's `topic` value, and neither compiled query text contains a topic
predicate; a request with `topic=alpha` receives events whose topic is
`beta`. -/
theorem topic_parameter_ignored :
    getEvents topicRequest (chRunPure 0 [evAlpha, evBeta]) (pgRunPure 0 [evAlpha, evBeta]) =
      ApiResponse.ok [evBeta, evAlpha] 2 ∧
    evBeta.topic ≠ topicRequest.topic ∧
    chQueryText (applyDefaults (bindQuery topicRequest)) =
      "SELECT timestamp, tool, topic, structured FROM events WHERE 1=1 ORDER BY timestamp DESC LIMIT 100" ∧
    pgQueryText (applyDefaults (bindQuery topicRequest)) =
      "SELECT timestamp, tool, topic, structured::text FROM events WHERE 1=1 ORDER BY timestamp DESC LIMIT $1" := by
  decide

/-- C3 (code bug): nothing invalidates an in-flight `loadMore` response
when the filter changes. In `traceC3` the second-page request of epoch A
is outstanding when the filter changes to B; after B's first page
resolves, the stale response's events are appended to B's buffer by the
unconditional `setEvents(prev => [...prev, ...newEvents])`. -/
theorem stale_response_merged_into_new_buffer :
    traceC3.filter = fB ∧ traceC3.events = [evB, evStale] ∧ evStale ∈ traceC3.events := by
  decide

/-- C4 (code bug): a failed `loadMore` is not latched. The `.catch`
handler only clears `loadingMore`: the accumulated events are preserved
(the true half of the claim), but no error state is entered and
`hasMore` stays true, so the very next proximity-to-bottom signal issues
another automatic fetch with no intervening filter change. -/
theorem failed_fetch_allows_immediate_refetch :
    traceC4.events = pageA1 ∧ traceC4.error = none ∧ traceC4.hasMore = true ∧
    traceC4.requestsIssued = 2 ∧
    (stepApp traceC4 .nearBottom).requestsIssued = 3 ∧
    (stepApp traceC4 .nearBottom).pendingMore = some (fA, pageLimit) := by
  decide

/-- C7: whenever the selected adapter reports an error, the facade's
response is the single normalized failure value carrying the underlying
message, with zero events — even when the adapter's raw result paired the
error with a partial row list. The facade consults its one adapter
invocation and renders it; there is no retry. -/
theorem facade_error_normalized (r : RawRequest)
    (chRun pgRun : QueryParams → List Event × Option String) (msg : String)
    (h : (if (applyDefaults (bindQuery r)).database = "clickhouse"
          then chRun (applyDefaults (bindQuery r))
          else pgRun (applyDefaults (bindQuery r))).2 = some msg) :
    getEvents r chRun pgRun = ApiResponse.fail msg ∧
      responseEvents (getEvents r chRun pgRun) = [] := by
  have hfail : getEvents r chRun pgRun = ApiResponse.fail msg := by
    simp only [getEvents]
    rw [h]
  exact ⟨hfail, by rw [hfail]; rfl⟩

/-- Witness for `facade_error_normalized`: a ClickHouse run failing with
a connection error alongside a partial row list. -/
theorem facade_error_normalized_witness :
    getEvents failReq failingChRun (pgRunPure 0 []) =
        ApiResponse.fail "clickhouse: connection refused" ∧
      responseEvents (getEvents failReq failingChRun (pgRunPure 0 [])) = [] :=
  facade_error_normalized failReq failingChRun (pgRunPure 0 [])
    "clickhouse: connection refused" rfl

/-- C9: after the facade's defaulting, any non-empty database value other
than "clickhouse" — including unrecognized ones like "mysql" — is
dispatched to the PostgreSQL adapter, while an absent (empty) value is
defaulted to ClickHouse. -/
theorem unrecognized_database_dispatches_relational :
    ∀ r : RawRequest,
      (r.database ≠ "" → r.database ≠ "clickhouse" →
        selectedAdapter r = Adapter.postgresql) ∧
      (r.database = "" → selectedAdapter r = Adapter.clickhouse) := by
  intro r
  constructor
  · intro h1 h2
    show (if (if r.database = "" then "clickhouse" else r.database) = "clickhouse"
          then Adapter.clickhouse else Adapter.postgresql) = Adapter.postgresql
    rw [if_neg h1, if_neg h2]
  · intro h1
    show (if (if r.database = "" then "clickhouse" else r.database) = "clickhouse"
          then Adapter.clickhouse else Adapter.postgresql) = Adapter.clickhouse
    rw [if_pos h1, if_pos rfl]

/-- C10: with an absent (empty) `timeRange` both adapters build no
timestamp predicate at all — the row predicate collapses to the content
condition, independent of `now` and of the event's timestamp — while the
1-hour fallback duration applies exactly to non-empty unrecognized
tokens, whose predicate is the 1-hour lower bound. -/
theorem window_token_semantics :
    ∀ (p : QueryParams) (now : Int) (e : Event),
      (p.timeRange = "" →
        chMatches p now e = (p.content == "" || likeContains e.structured p.content) ∧
        pgMatches p now e = (p.content == "" || likeContains e.structured p.content)) ∧
      (p.timeRange ≠ "" →
        p.timeRange ∉ (["1m", "5m", "20m", "1h", "5h", "1d", "1w", "1mo"] : List String) →
        chRangeDuration p.timeRange = 3600000 ∧ pgRangeDuration p.timeRange = 3600000 ∧
        chMatches p now e = (decide (now - 3600000 ≤ e.timestamp) &&
          (p.content == "" || likeContains e.structured p.content)) ∧
        pgMatches p now e = (decide (now - 3600000 ≤ e.timestamp) &&
          (p.content == "" || likeContains e.structured p.content))) := by
  intro p now e
  constructor
  · intro h
    constructor <;> simp [chMatches, pgMatches, h]
  · intro h1 h2
    simp only [List.mem_cons, List.not_mem_nil, or_false, not_or] at h2
    obtain ⟨n1, n2, n3, n4, n5, n6, n7, n8⟩ := h2
    have hne : (p.timeRange == "") = false := beq_eq_false_iff_ne.mpr h1
    have hch : chRangeDuration p.timeRange = 3600000 := by
      unfold chRangeDuration
      rw [if_neg n1, if_neg n2, if_neg n3, if_neg n4, if_neg n5, if_neg n6,
        if_neg n7, if_neg n8]
      norm_num
    have hpg : pgRangeDuration p.timeRange = 3600000 := by
      unfold pgRangeDuration
      rw [if_neg n1, if_neg n2, if_neg n3, if_neg n4, if_neg n5, if_neg n6,
        if_neg n7, if_neg n8]
      norm_num
    refine ⟨hch, hpg, ?_, ?_⟩ <;>
      simp [chMatches, pgMatches, hch, hpg, hne]

/-- A state with `hasMore = false` is fixed by `loadMoreStep`: the guard
issues no further request. -/
theorem loadMoreStep_fixed {matching : List Event} {s : PagState}
    (h : s.hasMore = false) : ∀ j : Nat, (loadMoreStep matching)^[j] s = s := by
  intro j
  induction j with
  | zero => rfl
  | succ j ihj =>
      rw [Function.iterate_succ_apply, loadMoreStep, if_neg (by simp [h]), ihj]

/-- Core induction for pagination termination: from any consistent state
(buffer = the first `offset` events, `hasMore` set, offset within the
data), `(remaining / pageLimit) + 1` further round trips accumulate the
whole matching list, clear `hasMore`, and perform exactly that many
fetches. -/
theorem loadMore_run (matching : List Event) :
    ∀ (d : Nat) (s : PagState), s.hasMore = true → s.offset ≤ matching.length →
      matching.length - s.offset = d → s.buffer = matching.take s.offset →
      ((loadMoreStep matching)^[d / pageLimit + 1] s).buffer = matching ∧
      ((loadMoreStep matching)^[d / pageLimit + 1] s).hasMore = false ∧
      ((loadMoreStep matching)^[d / pageLimit + 1] s).fetches =
        s.fetches + (d / pageLimit + 1) := by
  intro d
  induction d using Nat.strong_induction_on with
  | _ d IH =>
    intro s hmore hle hd hbuf
    have hstep : loadMoreStep matching s = applyPage s (serverPage matching s.offset) := by
      rw [loadMoreStep, if_pos hmore]
    by_cases hsmall : d < pageLimit
    · -- final page: strictly shorter than the limit
      have hk : d / pageLimit = 0 := Nat.div_eq_of_lt hsmall
      have hserv : serverPage matching s.offset = matching.drop s.offset := by
        apply List.take_of_length_le
        rw [List.length_drop, hd]
        omega
      have hlen : (serverPage matching s.offset).length < pageLimit := by
        rw [hserv, List.length_drop, hd]
        exact hsmall
      have hone : (loadMoreStep matching)^[d / pageLimit + 1] s =
          applyPage s (serverPage matching s.offset) := by
        rw [hk, Function.iterate_succ_apply, Function.iterate_zero_apply, hstep]
      rw [hone, applyPage, if_pos hlen, hk]
      refine ⟨?_, rfl, rfl⟩
      rw [hbuf, hserv, List.take_append_drop]
    · -- full page: recurse on the remaining suffix
      push_neg at hsmall
      have hpos : 0 < pageLimit := by decide
      have hlen : (serverPage matching s.offset).length = pageLimit := by
        rw [serverPage, List.length_take, List.length_drop, hd]
        omega
      have hs1 : applyPage s (serverPage matching s.offset) =
          { buffer := matching.take (s.offset + pageLimit)
            offset := s.offset + pageLimit
            hasMore := true
            fetches := s.fetches + 1 } := by
        rw [applyPage, if_neg (by rw [hlen]; exact Nat.lt_irrefl _), hlen, hbuf, serverPage]
        rw [← List.take_add]
      have hdiv : d / pageLimit = (d - pageLimit) / pageLimit + 1 :=
        Nat.div_eq_sub_div hpos hsmall
      have hrec := IH (d - pageLimit) (by omega)
        { buffer := matching.take (s.offset + pageLimit)
          offset := s.offset + pageLimit
          hasMore := true
          fetches := s.fetches + 1 }
        rfl (by show s.offset + pageLimit ≤ matching.length; omega)
        (by show matching.length - (s.offset + pageLimit) = d - pageLimit; omega) rfl
      rw [hdiv, Function.iterate_succ_apply, hstep, hs1]
      refine ⟨hrec.1, hrec.2.1, ?_⟩
      rw [hrec.2.2]
      show s.fetches + 1 + ((d - pageLimit) / pageLimit + 1) =
        s.fetches + ((d - pageLimit) / pageLimit + 1 + 1)
      omega

/-- The page the ClickHouse adapter serves at `limit 100, offset off` is
the `serverPage` slice of the full ordered matching result (the same
query without a window). -/
theorem query_page_eq (p : QueryParams) (now : Int) (table : List Event) (off : Nat) :
    queryClickHouse { p with limit := 100, offset := (off : Int) } now table =
      serverPage (orderByTimestampDesc (table.filter (chMatches p now))) off := by
  have hm : chMatches { p with limit := 100, offset := (off : Int) } now =
      chMatches p now := rfl
  simp only [queryClickHouse, serverPage, hm]
  rw [if_pos (by norm_num : (0 : Int) < ({ p with limit := 100, offset := (off : Int) } : QueryParams).limit)]
  by_cases ho : 0 < ({ p with limit := 100, offset := (off : Int) } : QueryParams).offset
  · rw [if_pos ho]
    have hoff : (({ p with limit := 100, offset := (off : Int) } : QueryParams).offset).toNat = off := by
      simp
    have hlim : (({ p with limit := 100, offset := (off : Int) } : QueryParams).limit).toNat = pageLimit := by
      simp [pageLimit]
    rw [hoff, hlim]
  · rw [if_neg ho]
    have hoff : off = 0 := by
      simp only [QueryParams.offset] at ho
      omega
    have hlim : (({ p with limit := 100, offset := (off : Int) } : QueryParams).limit).toNat = pageLimit := by
      simp [pageLimit]
    rw [hlim, hoff, List.drop_zero]

/-- C8: against any fixed filter and table snapshot, the pages the
backend serves are exactly the offset slices of the full ordered
matching result; starting from the first-page fetch, `matching.length /
100` further `loadMore` round trips reach the exhausted state with the
buffer holding exactly the matching events, having issued exactly
`matching.length / 100 + 1` fetches in total; and once exhausted, any
number of further proximity signals leaves the state — and the fetch
count — unchanged. -/
theorem pagination_termination (p : QueryParams) (now : Int) (table : List Event) :
    let matching := orderByTimestampDesc (table.filter (chMatches p now))
    let final := (loadMoreStep matching)^[matching.length / pageLimit] (initialFetch matching)
    (∀ off : Nat,
        queryClickHouse { p with limit := 100, offset := (off : Int) } now table =
          serverPage matching off) ∧
    final.buffer = matching ∧ final.hasMore = false ∧
    final.fetches = matching.length / pageLimit + 1 ∧
    (∀ j : Nat, (loadMoreStep matching)^[j] final = final) := by
  intro matching final
  have hpage : ∀ off : Nat,
      queryClickHouse { p with limit := 100, offset := (off : Int) } now table =
        serverPage matching off := fun off => query_page_eq p now table off
  have hpos : 0 < pageLimit := by decide
  by_cases hsmall : matching.length < pageLimit
  · -- a single short first page exhausts the data
    have hserv : serverPage matching 0 = matching := by
      rw [serverPage, List.drop_zero]
      exact List.take_of_length_le (Nat.le_of_lt hsmall)
    have hinit : initialFetch matching =
        { buffer := matching, offset := 0, hasMore := false, fetches := 1 } := by
      rw [initialFetch, hserv, applyPage, if_pos hsmall]
      rfl
    have hk : matching.length / pageLimit = 0 := Nat.div_eq_of_lt hsmall
    have hfinal : final = { buffer := matching, offset := 0, hasMore := false, fetches := 1 } := by
      show (loadMoreStep matching)^[matching.length / pageLimit] (initialFetch matching) = _
      rw [hk, Function.iterate_zero_apply, hinit]
    refine ⟨hpage, by rw [hfinal], by rw [hfinal], by rw [hfinal, hk], ?_⟩
    intro j
    rw [hfinal]
    exact loadMoreStep_fixed rfl j
  · -- a full first page, then the generic run
    push_neg at hsmall
    have hlen0 : (serverPage matching 0).length = pageLimit := by
      rw [serverPage, List.length_take, List.length_drop]
      omega
    have hinit : initialFetch matching =
        { buffer := matching.take pageLimit, offset := pageLimit, hasMore := true,
          fetches := 1 } := by
      rw [initialFetch, applyPage, if_neg (by rw [hlen0]; exact Nat.lt_irrefl _), hlen0,
        serverPage, List.drop_zero]
      rfl
    have hdiv : matching.length / pageLimit =
        (matching.length - pageLimit) / pageLimit + 1 :=
      Nat.div_eq_sub_div hpos hsmall
    have hrun := loadMore_run matching (matching.length - pageLimit)
      { buffer := matching.take pageLimit, offset := pageLimit, hasMore := true, fetches := 1 }
      rfl hsmall rfl rfl
    have hfinal : final = (loadMoreStep matching)^[(matching.length - pageLimit) / pageLimit + 1]
        { buffer := matching.take pageLimit, offset := pageLimit, hasMore := true, fetches := 1 } := by
      show (loadMoreStep matching)^[matching.length / pageLimit] (initialFetch matching) = _
      rw [hinit, hdiv]
    refine ⟨hpage, by rw [hfinal]; exact hrun.1, by rw [hfinal]; exact hrun.2.1, ?_, ?_⟩
    · rw [hfinal, hrun.2.2, hdiv]
      show 1 + ((matching.length - pageLimit) / pageLimit + 1) =
        (matching.length - pageLimit) / pageLimit + 1 + 1
      omega
    · intro j
      rw [hfinal]
      exact loadMoreStep_fixed hrun.2.1 j

/-- A derivable numeric path starts at an object or an array: primitive
values admit no discovered path. -/
theorem numericPathAt_shape {v : JsonValue} {pre p : String}
    (h : NumericPathAt v pre p) :
    (∃ fs, v = JsonValue.obj fs) ∨ (∃ es, v = JsonValue.arr es) := by
  cases h with
  | objLeaf hm hl => exact Or.inl ⟨_, rfl⟩
  | objRec hm hr => exact Or.inl ⟨_, rfl⟩
  | arrElem hg hr => exact Or.inr ⟨_, rfl⟩

/-- Membership in the array loop of `extractNestedFields`, given the
characterization of each element. -/
theorem mem_extractArrFields_iff (p : String) :
    ∀ (elems : List JsonValue),
      (∀ item ∈ elems, ∀ pre2 : String,
        (p ∈ extractNestedFields item pre2 ↔ NumericPathAt item pre2 p)) →
      ∀ (i : Nat) (pre : String),
        (p ∈ extractArrFields elems i pre ↔
          ∃ (j : Nat) (item : JsonValue), elems[j]? = some item ∧
            NumericPathAt item (bracketExtend pre (i + j)) p) := by
  intro elems
  induction elems with
  | nil =>
      intro _ i pre
      simp [extractArrFields]
  | cons x rest ih =>
      intro hIH i pre
      rw [extractArrFields, List.mem_append,
        hIH x (List.mem_cons_self x rest) (pre ++ "[" ++ toString i ++ "]"),
        ih (fun item hm pre2 => hIH item (List.mem_cons_of_mem x hm) pre2) (i + 1) pre]
      constructor
      · rintro (h | ⟨j, item, hg, hr⟩)
        · exact ⟨0, x, List.getElem?_cons_zero, by simpa [bracketExtend] using h⟩
        · refine ⟨j + 1, item, by simpa using hg, ?_⟩
          have : i + 1 + j = i + (j + 1) := by omega
          rw [this] at hr
          exact hr
      · rintro ⟨j, item, hg, hr⟩
        match j with
        | 0 =>
            rw [List.getElem?_cons_zero] at hg
            obtain rfl : x = item := by injection hg
            left
            simpa [bracketExtend] using hr
        | j + 1 =>
            rw [List.getElem?_cons_succ] at hg
            right
            refine ⟨j, item, hg, ?_⟩
            have : i + (j + 1) = i + 1 + j := by omega
            rw [this] at hr
            exact hr

/-- Normalized head equation of the object loop: for every value shape,
the contribution of one binding is the singleton path when the value is
a numeric leaf and the recursive extraction otherwise (which is empty for
the remaining primitives, exactly as the source's `else if` chain). -/
theorem extractObjFields_cons (k : String) (v : JsonValue)
    (rest : List (String × JsonValue)) (pre : String) :
    extractObjFields ((k, v) :: rest) pre =
      (if isNumericLeafJS v then [dotExtend pre k]
       else extractNestedFields v (dotExtend pre k)) ++ extractObjFields rest pre := by
  cases v <;> rfl

/-- Membership in the object loop of `extractNestedFields`, given the
characterization of each value. -/
theorem mem_extractObjFields_iff (p : String) :
    ∀ (fields : List (String × JsonValue)),
      (∀ kv ∈ fields, ∀ pre2 : String,
        (p ∈ extractNestedFields (Prod.snd kv) pre2 ↔ NumericPathAt (Prod.snd kv) pre2 p)) →
      ∀ pre : String,
        (p ∈ extractObjFields fields pre ↔
          ∃ (k : String) (v : JsonValue), (k, v) ∈ fields ∧
            ((isNumericLeafJS v = true ∧ p = dotExtend pre k) ∨
              NumericPathAt v (dotExtend pre k) p)) := by
  intro fields
  induction fields with
  | nil =>
      intro _ pre
      simp [extractObjFields]
  | cons kv rest ih =>
      intro hIH pre
      obtain ⟨k, v⟩ := kv
      rw [extractObjFields_cons, List.mem_append,
        ih (fun kv2 hm pre2 => hIH kv2 (List.mem_cons_of_mem (k, v) hm) pre2) pre]
      have hv : p ∈ extractNestedFields v (dotExtend pre k) ↔
          NumericPathAt v (dotExtend pre k) p :=
        hIH (k, v) (List.mem_cons_self (k, v) rest) (dotExtend pre k)
      have hhead : (p ∈ (if isNumericLeafJS v then [dotExtend pre k]
            else extractNestedFields v (dotExtend pre k))) ↔
          ((isNumericLeafJS v = true ∧ p = dotExtend pre k) ∨
            NumericPathAt v (dotExtend pre k) p) := by
        by_cases hleaf : isNumericLeafJS v = true
        · rw [if_pos hleaf]
          constructor
          · intro h
            exact Or.inl ⟨hleaf, by simpa using h⟩
          · rintro (⟨_, rfl⟩ | hnum)
            · exact List.mem_singleton_self _
            · rcases numericPathAt_shape hnum with ⟨fs, rfl⟩ | ⟨es, rfl⟩ <;>
                simp [isNumericLeafJS] at hleaf
        · rw [if_neg hleaf, hv]
          simp [hleaf]
      rw [hhead]
      constructor
      · rintro (h | ⟨k2, v2, hm, h2⟩)
        · exact ⟨k, v, List.mem_cons_self _ _, h⟩
        · exact ⟨k2, v2, List.mem_cons_of_mem _ hm, h2⟩
      · rintro ⟨k2, v2, hm, h2⟩
        rcases List.mem_cons.mp hm with heq | hm2
        · cases heq
          exact Or.inl h2
        · exact Or.inr ⟨k2, v2, hm2, h2⟩

/-- Membership in `extractNestedFields` coincides with derivability in
the path relation, by strong induction on the size of the JSON value. -/
theorem mem_extractNestedFields : ∀ (n : Nat) (v : JsonValue), sizeOf v ≤ n →
    ∀ (pre p : String), (p ∈ extractNestedFields v pre ↔ NumericPathAt v pre p) := by
  intro n
  induction n using Nat.strong_induction_on with
  | _ n IH =>
    intro v hv pre p
    match v with
    | JsonValue.null =>
        rw [show extractNestedFields (JsonValue.null) pre = ([] : List String) from rfl]
        simp only [List.not_mem_nil, false_iff]
        intro hc
        cases hc
    | JsonValue.bool b =>
        rw [show extractNestedFields (JsonValue.bool b) pre = ([] : List String) from rfl]
        simp only [List.not_mem_nil, false_iff]
        intro hc
        cases hc
    | JsonValue.num q =>
        rw [show extractNestedFields (JsonValue.num q) pre = ([] : List String) from rfl]
        simp only [List.not_mem_nil, false_iff]
        intro hc
        cases hc
    | JsonValue.str s =>
        rw [show extractNestedFields (JsonValue.str s) pre = ([] : List String) from rfl]
        simp only [List.not_mem_nil, false_iff]
        intro hc
        cases hc
    | JsonValue.arr elems =>
        have hElems : ∀ item ∈ elems, ∀ pre2 : String,
            (p ∈ extractNestedFields item pre2 ↔ NumericPathAt item pre2 p) := by
          intro item hm pre2
          have h1 : sizeOf item < sizeOf elems := List.sizeOf_lt_of_mem hm
          have h2 : sizeOf (JsonValue.arr elems) = 1 + sizeOf elems := by
            simp
          exact IH (sizeOf item) (by omega) item (Nat.le_refl _) pre2 p
        rw [show extractNestedFields (JsonValue.arr elems) pre = extractArrFields elems 0 pre from rfl,
          mem_extractArrFields_iff p elems hElems 0 pre]
        constructor
        · rintro ⟨j, item, hg, hr⟩
          exact NumericPathAt.arrElem hg (by simpa using hr)
        · intro h
          cases h with
          | arrElem hg hr => exact ⟨_, _, hg, by simpa using hr⟩
    | JsonValue.obj fields =>
        have hFields : ∀ kv ∈ fields, ∀ pre2 : String,
            (p ∈ extractNestedFields (Prod.snd kv) pre2 ↔ NumericPathAt (Prod.snd kv) pre2 p) := by
          intro kv hm pre2
          have h1 : sizeOf kv < sizeOf fields := List.sizeOf_lt_of_mem hm
          have h2 : sizeOf (JsonValue.obj fields) = 1 + sizeOf fields := by
            simp
          have h3 : sizeOf (Prod.snd kv) < sizeOf kv := by
            obtain ⟨a, b⟩ := kv
            simp
          exact IH (sizeOf (Prod.snd kv)) (by omega) (Prod.snd kv) (Nat.le_refl _) pre2 p
        rw [show extractNestedFields (JsonValue.obj fields) pre = extractObjFields fields pre from rfl,
          mem_extractObjFields_iff p fields hFields pre]
        constructor
        · rintro ⟨k, v2, hm, (⟨hleaf, rfl⟩ | hrec)⟩
          · exact NumericPathAt.objLeaf hm hleaf
          · exact NumericPathAt.objRec hm hrec
        · intro h
          cases h with
          | objLeaf hm hl => exact ⟨_, _, hm, Or.inl ⟨hl, rfl⟩⟩
          | objRec hm hr => exact ⟨_, _, hm, Or.inr hr⟩

/-- Instance of the size-bounded characterization at the value's own
size. -/
theorem mem_extractNestedFields_iff (v : JsonValue) (pre p : String) :
    p ∈ extractNestedFields v pre ↔ NumericPathAt v pre p :=
  mem_extractNestedFields (sizeOf v) v (Nat.le_refl _) pre p

/-- C6 counterexample: on the batch `[{"a": "12abc", "b": [5]}]` the
discovered path set is exactly `["a"]` — the string leaf `"12abc"` is
included although it does not parse fully as a number (only its prefix
does), and the numeric leaf `5` sitting directly at array position
`b[0]` is not included although it is a number. Both directions of the
claimed iff fail. -/
theorem discovery_rule_counterexample :
    discoverFields c6Batch = ["a"] ∧
    specParsesFullyAsFiniteNumber "12abc" = false ∧
    "b[0]" ∉ discoverFields c6Batch := by
  decide

/-- C6 amended: a path is in the discovered set iff some event of the
batch parses and derives it through object keys (dot segments) and array
indices (bracket segments), ending at an object-key leaf passing the
code's numeric test — a finite number, or a string with non-empty trim
whose longest `parseFloat` prefix is a finite number; numeric leaves
that are direct array elements are never included. -/
theorem discovery_rule_amended :
    ∀ (batch : List ChartEvent) (p : String),
      p ∈ discoverFields batch ↔
        ∃ e ∈ batch, ∃ v, e.structured = some v ∧ NumericPathAt v "" p := by
  intro batch p
  rw [discoverFields, (List.perm_insertionSort _ _).mem_iff, List.mem_dedup,
    List.mem_flatMap]
  constructor
  · rintro ⟨v, hv, hp⟩
    rw [List.mem_filterMap] at hv
    obtain ⟨e, he, hs⟩ := hv
    exact ⟨e, he, v, hs, (mem_extractNestedFields_iff v "" p).mp hp⟩
  · rintro ⟨e, he, v, hs, hnum⟩
    exact ⟨v, List.mem_filterMap.mpr ⟨e, he, hs⟩,
      (mem_extractNestedFields_iff v "" p).mpr hnum⟩

/-- Every label the en-US 12-hour rendering produces contains a space
(the one before the AM/PM day period) — so it is never a bare
`HH:MM:SS` string, whatever the timezone offset and timestamp. -/
theorem timeLabel_has_space (tz ts : Int) :
    ' ' ∈ (toLocaleTimeString_enUS tz ts).toList := by
  simp only [toLocaleTimeString_enUS]
  show ' ' ∈ (String.data _)
  rw [String.data_append]
  refine List.mem_append_right _ ?_
  split <;> decide

/-- C5 counterexample: on the spec's concrete scenario, `prepareChartData`
does not emit `[{time:"00:00:01", a:3}, {time:"00:00:02", a:5}]` (here
evaluated in a UTC environment): the display labels are the en-US
12-hour `toLocaleTimeString` renderings, not the claimed 24-hour
`HH:MM:SS` strings. -/
theorem aggregation_label_counterexample :
    prepareChartData ["a"] 0 c5Events ≠
      [⟨"00:00:01", [("a", 3)]⟩, ⟨"00:00:02", [("a", 5)]⟩] := by
  decide

/-- C5 amended: on the spec's scenario the aggregator sums the
co-timestamped values into one bucket (`a = 3`), orders buckets ascending
by time, and strips the raw timestamp — but the display label is the
en-US 12-hour local-time rendering (`"12:00:01 AM"`/`"12:00:02 AM"` in a
UTC environment), and under no timezone offset is it the claimed
`"00:00:01"`. -/
theorem aggregation_sums_ordering_enUS_label :
    prepareChartData ["a"] 0 c5Events =
      [⟨"12:00:01 AM", [("a", 3)]⟩, ⟨"12:00:02 AM", [("a", 5)]⟩] ∧
    ∀ tz : Int,
      (prepareChartData ["a"] tz c5Events).map SeriesPoint.time =
        [toLocaleTimeString_enUS tz 1000, toLocaleTimeString_enUS tz 2000] ∧
      "00:00:01" ∉ (prepareChartData ["a"] tz c5Events).map SeriesPoint.time := by
  refine ⟨by decide, fun tz => ?_⟩
  have hmap : (prepareChartData ["a"] tz c5Events).map SeriesPoint.time =
      [toLocaleTimeString_enUS tz 1000, toLocaleTimeString_enUS tz 2000] := rfl
  refine ⟨hmap, ?_⟩
  have hnosp : ' ' ∉ ("00:00:01" : String).toList := by decide
  intro hmem
  rw [hmap] at hmem
  rcases List.mem_cons.mp hmem with h | hmem2
  · rw [h] at hnosp
    exact hnosp (timeLabel_has_space tz 1000)
  · rcases List.mem_cons.mp hmem2 with h | h
    · rw [h] at hnosp
      exact hnosp (timeLabel_has_space tz 2000)
    · exact absurd h (List.not_mem_nil _)

end ControlHub
